import Mathlib

/-!
# scan-queue-processor: the dynamic resource allocator

A shallow embedding of `dynamic_resource_allocator/resource_allocator.go`
(`convertToMiGi` and `ResourceManager.ProcessRequest`) and the properties of
its capacity tiers, derived names and provisioning sequence.

Conventions of the embedding.

* A finite `float64` is the rational number it denotes, and `isFloat64` says
  of a rational that it is one. The comparisons of `convertToMiGi` and its
  division by `1024 * 1024` (a power of two, applied to a value of at least
  `2 ^ 20`) are exact in binary64, so they are the rational operations
  (`round64_div`). The sum `request + addition` is rounded to the nearest
  binary64 value, ties to even (`round64`), as Go's `+` does.
* The conversion `int(x)` of a `float64` outside the range of `int` is left
  to the implementation by the Go specification; its result is a parameter.
* A Go string is a sequence of bytes; a byte is written as the `Char` with
  the same code, so that an ASCII literal denotes itself and `String.length`
  is Go's `len`.
* The calls that leave the process (source-control host, cluster API,
  database) are functions held by the `ResourceManager`; a run of
  `ProcessRequest` yields the calls it issued, in order and with their
  results, and the way it ended (a returned error value, or a panic).
-/

namespace DynamicResourceAllocator

/-! ## Capacity tiers -/

/-- Go `convertToMiGi` (resource_allocator.go, lines 294-301). -/
def convertToMiGi (kb : ℚ) : ℚ × ℚ × String :=
  if kb ≥ 1024 * 1024 then
    (kb / (1024 * 1024), 1, "Gi")
  else if kb ≥ 1024 then
    (kb, 100, "Mi")
  else
    (kb, 1000, "Ki")

/-- Rounding to the nearest integer, a tie going to the even one. -/
def roundHalfEven (x : ℚ) : Int :=
  if x - ⌊x⌋ < 1 / 2 then ⌊x⌋
  else if 1 / 2 < x - ⌊x⌋ then ⌊x⌋ + 1
  else if ⌊x⌋ % 2 = 0 then ⌊x⌋
  else ⌊x⌋ + 1

/-- The binary exponent `e` of `q`, with `2 ^ e ≤ |q| < 2 ^ (e + 1)`; the
subnormal values of binary64 share the least exponent, -1022. -/
def binade (q : ℚ) : Int :=
  max (Int.log 2 |q|) (-1022)

/-- The distance between neighbouring binary64 values around `q`: the
significand has 53 bits. -/
def ulp (q : ℚ) : ℚ :=
  2 ^ (binade q - 52)

/-- The binary64 value nearest to `q`, a tie going to the even significand:
the result of a float64 operation whose exact result is `q`. Results beyond
the largest finite value, which Go turns into an infinity, do not occur in
`ProcessRequest`: it adds 1000 to a value below 1024, 100 to a value below
`2 ^ 20`, or 1 to a quotient by `2 ^ 20`. -/
def round64 (q : ℚ) : ℚ :=
  roundHalfEven (q / ulp q) * ulp q

/-- A rational that is a finite `float64` value. -/
def isFloat64 (q : ℚ) : Prop :=
  round64 q = q ∧ |q| < 2 ^ 1024

instance (q : ℚ) : Decidable (isFloat64 q) := by
  unfold isFloat64
  infer_instance

/-- Least value of Go's 64-bit `int`. -/
def minInt64 : Int := -(2 ^ 63)

/-- Greatest value of Go's 64-bit `int`. -/
def maxInt64 : Int := 2 ^ 63 - 1

/-- The 64-bit `int` with the low 64 bits of `n`. -/
def wrapInt64 (n : Int) : Int :=
  (n + 2 ^ 63) % 2 ^ 64 - 2 ^ 63

/-- Go conversion `int(x)` of a `float64`: the fraction is discarded
(truncation toward zero). When the integer part does not fit the 64-bit
`int`, the Go specification leaves the result to the implementation (amd64
yields `minInt64`, arm64 the nearest `int`): it is `outOfRange x`, taken as a
64-bit `int`. -/
def goInt (outOfRange : ℚ → Int) (x : ℚ) : Int :=
  let t : Int := if 0 ≤ x then ⌊x⌋ else ⌈x⌉
  if minInt64 ≤ t ∧ t ≤ maxInt64 then t else wrapInt64 (outOfRange x)

/-- Go `fmt.Sprintf("%d%s", n, unit)`. -/
def Sprintf (n : Int) (unit : String) : String :=
  toString n ++ unit

/-- The local variables `request`, `addition`, `unit`, `actual`,
`requestSize` and `actualSize` of `ProcessRequest` (lines 49-52). -/
structure CapacityPlan where
  request : ℚ
  addition : ℚ
  unit : String
  actual : ℚ
  requestSize : String
  actualSize : String

/-- Lines 49-52 of `ProcessRequest`: the capacity plan computed from the
measured size. -/
def capacityPlan (outOfRange : ℚ → Int) (size : ℚ) : CapacityPlan :=
  let request := (convertToMiGi size).1
  let addition := (convertToMiGi size).2.1
  let unit := (convertToMiGi size).2.2
  let actual := round64 (request + addition)
  { request := request
    addition := addition
    unit := unit
    actual := actual
    requestSize := Sprintf (goInt outOfRange request) unit
    actualSize := Sprintf (goInt outOfRange actual) unit }

/-- Number of bytes a Kubernetes quantity suffix stands for: `Ki` is 1024
bytes, `Mi` is 1024^2 bytes and `Gi` is 1024^3 bytes; no suffix is one
byte. -/
def unitBytes (unit : String) : Int :=
  if unit = "Ki" then 1024
  else if unit = "Mi" then 1024 ^ 2
  else if unit = "Gi" then 1024 ^ 3
  else 1

/-- Bytes of the capacity that `ProcessRequest` gives the volume: the integer
magnitude rendered into `actualSize`, times its unit. -/
def volumeBytes (outOfRange : ℚ → Int) (size : ℚ) : Int :=
  goInt outOfRange (capacityPlan outOfRange size).actual *
    unitBytes (capacityPlan outOfRange size).unit

/-! ## Derived names -/

/-- A byte in `A`..`Z` is moved to `a`..`z`; every other byte is kept. -/
def asciiLower (c : Char) : Char :=
  if 'A' ≤ c ∧ c ≤ 'Z' then Char.ofNat (c.toNat + 32) else c

/-- Go `strings.ToLower`. A string of ASCII bytes only is mapped byte by byte;
any other string goes through the Unicode case tables of the Go library
(`strings.Map(unicode.ToLower, s)`), which are the parameter `mapRunes`. -/
def ToLower (mapRunes : String → String) (s : String) : String :=
  if s.data.all (fun c => decide (c.toNat < 128)) then
    String.mk (s.data.map asciiLower)
  else
    mapRunes s

/-- Go `strings.ReplaceAll(s, old, new)` for one-byte `old` and `new`. -/
def ReplaceAll (s : String) (old new : Char) : String :=
  String.mk (s.data.map (fun c => if c = old then new else c))

/-- The pod name of `ProcessRequest` (lines 82-86): the concatenation, and its
cut to the first 62 bytes when it has more than 63. -/
def derivePodName (mapRunes : String → String) (repoName uniqueIdentifier : String) :
    String :=
  let podName := ReplaceAll (ToLower mapRunes repoName) '_' '-' ++ "-" ++ uniqueIdentifier
  if podName.length > 63 then String.mk (podName.data.take 62) else podName

/-- A letter `a`..`z` or a digit `0`..`9`. -/
def isLowerAlnum (c : Char) : Bool :=
  (decide ('a' ≤ c) && decide (c ≤ 'z')) || (decide ('0' ≤ c) && decide (c ≤ '9'))

/-- An ASCII letter or digit. -/
def isAsciiAlnum (c : Char) : Bool :=
  isLowerAlnum c || (decide ('A' ≤ c) && decide (c ≤ 'Z'))

/-- A DNS label (RFC 1123): 1 to 63 characters from `[a-z0-9-]`, the first
and the last one a letter or a digit. -/
def isDNSLabel (s : String) : Bool :=
  decide (1 ≤ s.length) && decide (s.length ≤ 63) &&
    s.data.all (fun c => isLowerAlnum c || c == '-') &&
    (s.data.head?.map isLowerAlnum).getD false &&
    (s.data.getLast?.map isLowerAlnum).getD false

/-- A repository name made of ASCII letters, digits, hyphens and underscores
that is not empty and begins with a letter or a digit. -/
def isPlainRepoName (s : String) : Bool :=
  s.data.all (fun c => isAsciiAlnum c || c == '-' || c == '_') &&
    (s.data.head?.map isAsciiAlnum).getD false

/-- A lowercase hexadecimal digit. -/
def isLowerHex (c : Char) : Bool :=
  (decide ('0' ≤ c) && decide (c ≤ '9')) || (decide ('a' ≤ c) && decide (c ≤ 'f'))

/-- The canonical text of a UUID, as `uuid.NewString` returns it: 36
characters, hyphens at offsets 8, 13, 18 and 23, lowercase hexadecimal digits
elsewhere. -/
def isCanonicalUUID (s : String) : Bool :=
  decide (s.length = 36) &&
    (s.data.enum.all (fun p =>
      if p.1 = 8 ∨ p.1 = 13 ∨ p.1 = 18 ∨ p.1 = 23 then p.2 == '-' else isLowerHex p.2))

/-! ## Requests, cluster objects and collaborators -/

/-- Modelled from the spec: the fields of `models.QueuedScan` (its declaration
is in the `models` package) that `ProcessRequest` and `GetRepoSize` read:
request id, repository namespace and name, source URL, encrypted access token
and privacy flag. Nothing below depends on the type of `ID`. -/
structure QueuedScan where
  ID : Int
  Namespace : String
  RepoName : String
  URL : String
  EncryptedToken : String
  IsPrivate : Bool
  deriving DecidableEq, Repr

/-- A Go `error` value; `Error` is the text its method `Error()` returns. -/
structure GoError where
  Error : String
  deriving DecidableEq, Repr

/-- The fields of `v1.PersistentVolume` set at lines 55-73. `Capacity` holds
the text handed to `resource.MustParse`, which accepts every text made by
`Sprintf` from an integer and one of `Ki`, `Mi`, `Gi`. -/
structure PersistentVolume where
  Name : String
  Capacity : String
  VolumeMode : String
  StorageClassName : String
  AccessModes : List String
  HostPath : String
  PersistentVolumeReclaimPolicy : String
  deriving DecidableEq, Repr

/-- One `v1.EnvVar`: a literal value, or a reference (secret name, key). -/
structure EnvVar where
  Name : String
  Value : String
  SecretKeyRef : Option (String × String)
  deriving DecidableEq, Repr

/-- The fields of `v1.Container` set at lines 104-230. -/
structure Container where
  ImagePullPolicy : String
  Name : String
  Image : String
  Env : List EnvVar
  Requests : List (String × String)
  Limits : List (String × String)
  VolumeMounts : List (String × String)
  deriving DecidableEq, Repr

/-- The fields of `v1.Pod` set at lines 89-243, and the `UID` that the
cluster assigns to the pod it returns. `Volumes` pairs a volume name with the
name of the claim behind it. -/
structure Pod where
  Kind : String
  APIVersion : String
  Name : String
  UID : String
  ImagePullSecrets : List String
  Containers : List Container
  Volumes : List (String × String)
  deriving DecidableEq, Repr

/-- Kubernetes `metav1.OwnerReference`. -/
structure OwnerReference where
  APIVersion : String
  Kind : String
  Name : String
  UID : String
  deriving DecidableEq, Repr

/-- The fields of `v1.PersistentVolumeClaim` set at lines 252-275.
`StorageRequest` holds the text handed to `resource.MustParse`. -/
structure PersistentVolumeClaim where
  Name : String
  Namespace : String
  OwnerReferences : List OwnerReference
  AccessModes : List String
  StorageRequest : String
  StorageClassName : String
  VolumeMode : String
  deriving DecidableEq, Repr

/-- The interface `scm_service.SCMService`. -/
structure SCMService where
  GetRepoSize : QueuedScan → Except GoError ℚ

/-- The three create calls of the cluster client that `ProcessRequest` makes:
`PersistentVolumes().Create`, `Pods(namespace).Create` and
`PersistentVolumeClaims(namespace).Create`. -/
structure Clientset where
  CreatePersistentVolume : PersistentVolume → Except GoError PersistentVolume
  CreatePod : String → Pod → Except GoError Pod
  CreatePersistentVolumeClaim :
    String → PersistentVolumeClaim → Except GoError PersistentVolumeClaim

/-- The database handle: `ExecContext` with the statement of line 283, given
its three arguments (queue status, scan id, request id). -/
structure DB where
  ExecContext : String → String → Int → Except GoError Unit

/-- Go `ResourceManager` (lines 26-31); `namespace_` is its field `namespace`. -/
structure ResourceManager where
  k8Client : Clientset
  scmClient : SCMService
  namespace_ : String
  db : DB

/-- What the Go libraries and the Go implementation supply to one run: the
text `uuid.NewString()` returns, the Unicode case tables behind
`strings.ToLower`, and the result of `int(x)` for a `float64` outside the
range of `int`. -/
structure Runtime where
  NewString : String
  mapRunes : String → String
  intOutOfRange : ℚ → Int

/-- A call that leaves the process. -/
inductive Call where
  | CreatePersistentVolume (pv : PersistentVolume)
  | CreatePod (ns : String) (pod : Pod)
  | CreatePersistentVolumeClaim (ns : String) (pvc : PersistentVolumeClaim)
  | ExecContext (queueStatus scanId : String) (id : Int)
  deriving DecidableEq, Repr

/-- A call that was issued, with the error it came back with (`none` when it
succeeded). -/
structure Event where
  call : Call
  err : Option GoError
  deriving DecidableEq, Repr

/-- How a run of `ProcessRequest` ends: it returns its `error` result (`none`
is Go's `nil`), or it panics with a message and never returns. -/
inductive Outcome where
  | returned (err : Option GoError)
  | panicked (msg : String)
  deriving DecidableEq, Repr

/-- A run of `ProcessRequest`: the calls issued, in order, and the end. -/
structure Run where
  events : List Event
  outcome : Outcome
  deriving DecidableEq, Repr

/-- The error of a collaborator's answer, `none` when it succeeded. -/
def errOf {α : Type} (r : Except GoError α) : Option GoError :=
  match r with
  | .error e => some e
  | .ok _ => none

/-! ## ProcessRequest -/

/-- The volume built at lines 55-73. -/
def newPersistentVolume (pvName actualSize className repoName : String) :
    PersistentVolume :=
  { Name := pvName
    Capacity := actualSize
    VolumeMode := "Filesystem"
    StorageClassName := className
    AccessModes := ["ReadWriteMany"]
    HostPath := "/tmp/trufflehog/" ++ repoName
    PersistentVolumeReclaimPolicy := "Delete" }

/-- An environment entry read from the secret `global-secret`. -/
def secretEnv (key : String) : EnvVar :=
  { Name := key, Value := "", SecretKeyRef := some ("global-secret", key) }

/-- The pod built at lines 89-243. -/
def newPod (podName pvcName uniqueIdentifier : String) (scanRequest : QueuedScan) : Pod :=
  { Kind := "Pod"
    APIVersion := "v1"
    Name := podName
    UID := ""
    ImagePullSecrets := ["artifactory-registry"]
    Containers :=
      [{ ImagePullPolicy := "Always"
         Name := podName
         Image := "sudhagarkv/truffle-scanner:latest"
         Env :=
           [{ Name := "URL", Value := scanRequest.URL, SecretKeyRef := none },
            { Name := "ENCRYPTED_TOKEN", Value := scanRequest.EncryptedToken,
              SecretKeyRef := none },
            { Name := "IS_PRIVATE", Value := toString scanRequest.IsPrivate,
              SecretKeyRef := none },
            { Name := "SCAN_ID", Value := uniqueIdentifier, SecretKeyRef := none },
            secretEnv "DB_HOST", secretEnv "DB_PORT", secretEnv "DB_NAME",
            secretEnv "DB_USER", secretEnv "AZURE_CLIENT_ID", secretEnv "AZURE_TENANT_ID",
            secretEnv "AZURE_CLIENT_SECRET", secretEnv "KEY_VAULT_URL"]
         Requests := [("cpu", "0.5"), ("memory", "256Mi")]
         Limits := [("cpu", "3"), ("memory", "1Gi")]
         VolumeMounts := [("scan-volume", "/home/scanner/")] }]
    Volumes := [("scan-volume", pvcName)] }

/-- The claim built at lines 252-275, owned by the pod the cluster returned. -/
def newPersistentVolumeClaim (pvcName ns requestSize className : String) (createdPod : Pod) :
    PersistentVolumeClaim :=
  { Name := pvcName
    Namespace := ns
    OwnerReferences :=
      [{ APIVersion := "v1", Kind := "Pod", Name := createdPod.Name, UID := createdPod.UID }]
    AccessModes := ["ReadWriteMany"]
    StorageRequest := requestSize
    StorageClassName := className
    VolumeMode := "Filesystem" }

/-- Go `(*ResourceManager).ProcessRequest` (lines 39-292). Each
`panic(err.Error())` ends the run with `Outcome.panicked`; the log lines are
left out (the one of line 289 words the new status as queued, where the
statement of line 283 sets `Scheduled`). -/
def ProcessRequest (rt : Runtime) (rm : ResourceManager) (scanRequest : QueuedScan) : Run :=
  let uniqueIdentifier := rt.NewString
  let pvName := "trufflehog-pv-" ++ uniqueIdentifier
  match rm.scmClient.GetRepoSize scanRequest with
  | .error err => { events := [], outcome := .returned (some err) }
  | .ok size =>
    let className := "manual"
    let plan := capacityPlan rt.intOutOfRange size
    let pv := newPersistentVolume pvName plan.actualSize className scanRequest.RepoName
    match rm.k8Client.CreatePersistentVolume pv with
    | .error err =>
      { events := [⟨.CreatePersistentVolume pv, some err⟩], outcome := .panicked err.Error }
    | .ok _ =>
      let pvcName := "trufflehog-pvc-" ++ uniqueIdentifier
      let podName := derivePodName rt.mapRunes scanRequest.RepoName uniqueIdentifier
      let pod := newPod podName pvcName uniqueIdentifier scanRequest
      match rm.k8Client.CreatePod rm.namespace_ pod with
      | .error err =>
        { events := [⟨.CreatePersistentVolume pv, none⟩, ⟨.CreatePod rm.namespace_ pod, some err⟩]
          outcome := .panicked err.Error }
      | .ok createdPod =>
        let pvc :=
          newPersistentVolumeClaim pvcName rm.namespace_ plan.requestSize className createdPod
        match rm.k8Client.CreatePersistentVolumeClaim rm.namespace_ pvc with
        | .error err =>
          { events :=
              [⟨.CreatePersistentVolume pv, none⟩, ⟨.CreatePod rm.namespace_ pod, none⟩,
               ⟨.CreatePersistentVolumeClaim rm.namespace_ pvc, some err⟩]
            outcome := .panicked err.Error }
        | .ok _ =>
          match rm.db.ExecContext "Scheduled" uniqueIdentifier scanRequest.ID with
          | .error err =>
            { events :=
                [⟨.CreatePersistentVolume pv, none⟩, ⟨.CreatePod rm.namespace_ pod, none⟩,
                 ⟨.CreatePersistentVolumeClaim rm.namespace_ pvc, none⟩,
                 ⟨.ExecContext "Scheduled" uniqueIdentifier scanRequest.ID, some err⟩]
              outcome := .returned (some err) }
          | .ok _ =>
            { events :=
                [⟨.CreatePersistentVolume pv, none⟩, ⟨.CreatePod rm.namespace_ pod, none⟩,
                 ⟨.CreatePersistentVolumeClaim rm.namespace_ pvc, none⟩,
                 ⟨.ExecContext "Scheduled" uniqueIdentifier scanRequest.ID, none⟩]
              outcome := .returned none }

/-- The stage a call belongs to: 0 volume, 1 pod, 2 claim, 3 status record. -/
def Call.stage : Call → Nat
  | .CreatePersistentVolume _ => 0
  | .CreatePod _ _ => 1
  | .CreatePersistentVolumeClaim _ _ => 2
  | .ExecContext _ _ _ => 3

/-- The queue status of the record of request `id` after the events of a run,
given its status before: the statement of line 283 sets it to its first
argument on the record with that id, when it succeeds. -/
def queueStatusAfter (before : String) (id : Int) (events : List Event) : String :=
  events.foldl
    (fun st ev =>
      match ev.call, ev.err with
      | .ExecContext queueStatus _ id2, none => if id2 = id then queueStatus else st
      | _, _ => st)
    before

/-- The error the collaborators of `rm` answer a call with, `none` when the
call succeeds. -/
def answer (rm : ResourceManager) : Call → Option GoError
  | .CreatePersistentVolume pv => errOf (rm.k8Client.CreatePersistentVolume pv)
  | .CreatePod ns pod => errOf (rm.k8Client.CreatePod ns pod)
  | .CreatePersistentVolumeClaim ns pvc => errOf (rm.k8Client.CreatePersistentVolumeClaim ns pvc)
  | .ExecContext queueStatus scanId id => errOf (rm.db.ExecContext queueStatus scanId id)

/-! ## Sample inputs -/

/-- A request for a public repository. -/
def sampleRequest : QueuedScan :=
  { ID := 7
    Namespace := "sudhagarkv"
    RepoName := "My_Repo"
    URL := "https://github.com/sudhagarkv/My_Repo"
    EncryptedToken := ""
    IsPrivate := false }

/-- A run identity, no case table (the sample names are ASCII), and the
conversion of amd64. -/
def sampleRuntime : Runtime :=
  { NewString := "123e4567-e89b-42d3-a456-426614174000"
    mapRunes := id
    intOutOfRange := fun _ => minInt64 }

/-- Collaborators that all succeed: the repository measures 500 KB and the
cluster returns the pod under the UID `uid-1`. -/
def healthyManager : ResourceManager :=
  { k8Client :=
      { CreatePersistentVolume := fun pv => .ok pv
        CreatePod := fun _ pod => .ok { pod with UID := "uid-1" }
        CreatePersistentVolumeClaim := fun _ pvc => .ok pvc }
    scmClient := { GetRepoSize := fun _ => .ok 500 }
    namespace_ := "trufflehog-scanner"
    db := { ExecContext := fun _ _ _ => .ok () } }

/-- Collaborators whose size lookup fails. -/
def sizeLookupFails : ResourceManager :=
  { healthyManager with
    scmClient := { GetRepoSize := fun _ => .error { Error := "unable to get repo size" } } }

/-- Collaborators whose volume creation fails. -/
def volumeCreateFails : ResourceManager :=
  { healthyManager with
    k8Client :=
      { healthyManager.k8Client with
        CreatePersistentVolume := fun _ => .error { Error := "storage class not found" } } }

/-- Collaborators whose status update fails. -/
def statusUpdateFails : ResourceManager :=
  { healthyManager with
    db := { ExecContext := fun _ _ _ => .error { Error := "connection refused" } } }

/-! ## Binary64 rounding: properties -/

theorem roundHalfEven_intCast (n : Int) : roundHalfEven (n : ℚ) = n := by
  simp [roundHalfEven]

theorem roundHalfEven_of_lt_half {x : ℚ} {n : Int} (h0 : (n : ℚ) ≤ x) (h1 : x < n + 1 / 2) :
    roundHalfEven x = n := by
  have hf : ⌊x⌋ = n := by
    rw [Int.floor_eq_iff]
    constructor
    · exact h0
    · linarith
  unfold roundHalfEven
  rw [hf]
  have : x - (n : ℚ) < 1 / 2 := by linarith
  simp only [this, if_true]

theorem roundHalfEven_mono {x y : ℚ} (h : x ≤ y) : roundHalfEven x ≤ roundHalfEven y := by
  have hfg : ⌊x⌋ ≤ ⌊y⌋ := Int.floor_mono h
  have hx1 := Int.floor_le x
  have hy2 := Int.lt_floor_add_one y
  unfold roundHalfEven
  rcases lt_or_eq_of_le hfg with hlt | heq
  · split_ifs <;> omega
  · rw [← heq] at hy2 ⊢
    split_ifs <;> first | omega | (exfalso; linarith)

theorem log_spec {q : ℚ} (hq : 0 < q) :
    (2 : ℚ) ^ Int.log 2 q ≤ q ∧ q < (2 : ℚ) ^ (Int.log 2 q + 1) := by
  have h1 := Int.zpow_log_le_self (b := 2) (r := q) (by norm_num) hq
  have h2 := Int.lt_zpow_succ_log_self (b := 2) (by norm_num) q
  simp only [Nat.cast_ofNat] at h1 h2
  exact ⟨h1, h2⟩

theorem log_unique {q : ℚ} {k : Int} (h1 : (2 : ℚ) ^ k ≤ q) (h2 : q < (2 : ℚ) ^ (k + 1)) :
    Int.log 2 q = k := by
  have hq : 0 < q := lt_of_lt_of_le (zpow_pos (by norm_num) k) h1
  have a1 : k ≤ Int.log 2 q := by
    rw [← Int.zpow_le_iff_le_log (by norm_num) hq]
    simpa using h1
  have a2 : Int.log 2 q < k + 1 := by
    rw [← Int.lt_zpow_iff_log_lt (by norm_num) hq]
    simpa using h2
  omega

theorem log_nonneg_of_one_le {q : ℚ} (hq : 1 ≤ q) : 0 ≤ Int.log 2 q := by
  have h0 : 0 < q := by linarith
  rw [← Int.zpow_le_iff_le_log (by norm_num) h0]
  simpa using hq

theorem ulp_of_one_le {q : ℚ} (hq : 1 ≤ q) : ulp q = 2 ^ (Int.log 2 q - 52) := by
  have h0 : 0 ≤ q := by linarith
  have := log_nonneg_of_one_le hq
  unfold ulp binade
  rw [abs_of_nonneg h0, max_eq_left (by omega)]

theorem ulp_pos (q : ℚ) : 0 < ulp q := zpow_pos (by norm_num) _

/-- Quotient by the ulp lies in [2^52, 2^53). -/
theorem div_ulp_bounds {q : ℚ} (hq : 1 ≤ q) :
    (2 : ℚ) ^ (52 : ℕ) ≤ q / ulp q ∧ q / ulp q < (2 : ℚ) ^ (53 : ℕ) := by
  have h0 : 0 < q := by linarith
  obtain ⟨h1, h2⟩ := log_spec h0
  have hu := ulp_pos q
  have e1 : (2 : ℚ) ^ Int.log 2 q = 2 ^ (52 : ℕ) * ulp q := by
    rw [ulp_of_one_le hq, ← zpow_natCast, ← zpow_add₀ (by norm_num)]
    congr 1
    push_cast
    ring
  have e2 : (2 : ℚ) ^ (Int.log 2 q + 1) = 2 ^ (53 : ℕ) * ulp q := by
    rw [ulp_of_one_le hq, ← zpow_natCast, ← zpow_add₀ (by norm_num)]
    congr 1
    push_cast
    ring
  constructor
  · rw [le_div_iff₀ hu, ← e1]
    exact h1
  · rw [div_lt_iff₀ hu, ← e2]
    exact h2

theorem round64_bounds {q : ℚ} (hq : 1 ≤ q) :
    (2 : ℚ) ^ Int.log 2 q ≤ round64 q ∧ round64 q ≤ (2 : ℚ) ^ (Int.log 2 q + 1) := by
  obtain ⟨b1, b2⟩ := div_ulp_bounds hq
  have hu := ulp_pos q
  have r1 : (2 : Int) ^ (52 : ℕ) ≤ roundHalfEven (q / ulp q) := by
    have := roundHalfEven_mono (x := (((2 : Int) ^ (52 : ℕ) : Int) : ℚ)) (y := q / ulp q)
      (by push_cast; exact b1)
    rwa [roundHalfEven_intCast] at this
  have r2 : roundHalfEven (q / ulp q) ≤ (2 : Int) ^ (53 : ℕ) := by
    have := roundHalfEven_mono (x := q / ulp q) (y := (((2 : Int) ^ (53 : ℕ) : Int) : ℚ))
      (by push_cast; exact b2.le)
    rwa [roundHalfEven_intCast] at this
  have e1 : (2 : ℚ) ^ Int.log 2 q = 2 ^ (52 : ℕ) * ulp q := by
    rw [ulp_of_one_le hq, ← zpow_natCast, ← zpow_add₀ (by norm_num)]
    congr 1
    push_cast
    ring
  have e2 : (2 : ℚ) ^ (Int.log 2 q + 1) = 2 ^ (53 : ℕ) * ulp q := by
    rw [ulp_of_one_le hq, ← zpow_natCast, ← zpow_add₀ (by norm_num)]
    congr 1
    push_cast
    ring
  have c1 : ((2 : ℚ) ^ (52 : ℕ)) ≤ (roundHalfEven (q / ulp q) : ℚ) := by exact_mod_cast r1
  have c2 : (roundHalfEven (q / ulp q) : ℚ) ≤ ((2 : ℚ) ^ (53 : ℕ)) := by exact_mod_cast r2
  unfold round64
  rw [e1, e2]
  constructor
  · exact mul_le_mul_of_nonneg_right c1 hu.le
  · exact mul_le_mul_of_nonneg_right c2 hu.le

theorem round64_mono {x y : ℚ} (hx : 1 ≤ x) (h : x ≤ y) : round64 x ≤ round64 y := by
  have hy : 1 ≤ y := le_trans hx h
  have hx0 : 0 < x := by linarith
  have hlog : Int.log 2 x ≤ Int.log 2 y := Int.log_mono_right hx0 h
  rcases lt_or_eq_of_le hlog with hlt | heq
  · have a := (round64_bounds hx).2
    have b := (round64_bounds hy).1
    have c : (2 : ℚ) ^ (Int.log 2 x + 1) ≤ 2 ^ Int.log 2 y :=
      zpow_le_zpow_right₀ (by norm_num) (by omega)
    linarith
  · have hu : ulp x = ulp y := by rw [ulp_of_one_le hx, ulp_of_one_le hy, heq]
    unfold round64
    rw [hu]
    have hpos := ulp_pos y
    have hdiv : x / ulp y ≤ y / ulp y := div_le_div_of_nonneg_right h hpos.le
    have := roundHalfEven_mono hdiv
    have hc : (roundHalfEven (x / ulp y) : ℚ) ≤ (roundHalfEven (y / ulp y) : ℚ) := by
      exact_mod_cast this
    exact mul_le_mul_of_nonneg_right hc hpos.le

/-- A value that is an integer number of ulps is kept by rounding. -/
theorem round64_of_div_ulp {q : ℚ} {n : Int} (h : q / ulp q = n) : round64 q = q := by
  have hu := ulp_pos q
  unfold round64
  rw [h, roundHalfEven_intCast, ← h]
  field_simp

/-- A rounded value is an integer number of ulps. -/
theorem div_ulp_of_round64 {q : ℚ} (h : round64 q = q) :
    q / ulp q = roundHalfEven (q / ulp q) := by
  have hu := ulp_pos q
  have : q = roundHalfEven (q / ulp q) * ulp q := by
    conv_lhs => rw [← h]
    rfl
  rw [eq_comm, ← mul_left_inj' hu.ne']
  rw [← this]
  field_simp

theorem log_le_of_lt_pow {q : ℚ} {k : Int} (hq : 0 < q) (h : q < (2 : ℚ) ^ k) :
    Int.log 2 q < k := by
  rw [← Int.lt_zpow_iff_log_lt (by norm_num) hq]
  simpa using h

theorem le_log_of_pow_le {q : ℚ} {k : Int} (hq : 0 < q) (h : (2 : ℚ) ^ k ≤ q) :
    k ≤ Int.log 2 q := by
  rw [← Int.zpow_le_iff_le_log (by norm_num) hq]
  simpa using h

/-- Integers from 1 to 2^53 are binary64 values. -/
theorem round64_intCast {n : Int} (h1 : 1 ≤ n) (h2 : n ≤ 2 ^ 53) : round64 (n : ℚ) = n := by
  have hq : (1 : ℚ) ≤ n := by exact_mod_cast h1
  have h0 : (0 : ℚ) < n := by linarith
  have hE0 := log_nonneg_of_one_le hq
  have hE1 : Int.log 2 (n : ℚ) < 54 := by
    apply log_le_of_lt_pow h0
    have : (n : ℚ) ≤ 2 ^ 53 := by exact_mod_cast h2
    have h54 : ((2 : ℚ) ^ (54 : Int)) = 2 ^ (54 : ℕ) := by norm_cast
    rw [h54]
    linarith [show ((2 : ℚ) ^ 53) < 2 ^ (54 : ℕ) by norm_num]
  rcases lt_or_eq_of_le (show Int.log 2 (n : ℚ) ≤ 53 by omega) with hlt | heq
  · obtain ⟨k, hk⟩ : ∃ k : ℕ, (k : Int) = 52 - Int.log 2 (n : ℚ) := ⟨(52 - Int.log 2 (n : ℚ)).toNat, by omega⟩
    apply round64_of_div_ulp (n := n * 2 ^ k)
    rw [ulp_of_one_le hq]
    have : Int.log 2 (n : ℚ) - 52 = -(k : Int) := by omega
    rw [this, zpow_neg, zpow_natCast]
    push_cast
    field_simp
  · have hp := (log_spec h0).1
    rw [heq] at hp
    have h53 : ((2 : ℚ) ^ (53 : Int)) = 2 ^ (53 : ℕ) := by norm_cast
    rw [h53] at hp
    have hn : (n : ℚ) = 2 ^ (53 : ℕ) := by
      apply le_antisymm
      · exact_mod_cast h2
      · exact hp
    apply round64_of_div_ulp (n := 2 ^ 52)
    rw [ulp_of_one_le hq, heq, hn]
    norm_num

/-- A binary64 value of at least 2^52 is an integer. -/
theorem int_of_round64_of_ge {r : ℚ} (hr : round64 r = r) (h : (2 : ℚ) ^ (52 : ℕ) ≤ r) :
    ∃ m : Int, r = m := by
  have hq : (1 : ℚ) ≤ r := by
    have : (1 : ℚ) ≤ 2 ^ (52 : ℕ) := by norm_num
    linarith
  have h0 : (0 : ℚ) < r := by linarith
  have hE : 52 ≤ Int.log 2 r := by
    apply le_log_of_pow_le h0
    have h52 : ((2 : ℚ) ^ (52 : Int)) = 2 ^ (52 : ℕ) := by norm_cast
    rw [h52]
    exact h
  obtain ⟨k, hk⟩ : ∃ k : ℕ, (k : Int) = Int.log 2 r - 52 := ⟨(Int.log 2 r - 52).toNat, by omega⟩
  refine ⟨roundHalfEven (r / ulp r) * 2 ^ k, ?_⟩
  have hdef : r = roundHalfEven (r / ulp r) * ulp r := by
    conv_lhs => rw [← hr]
    rfl
  rw [ulp_of_one_le hq, ← hk, zpow_natCast] at hdef
  push_cast
  rw [ulp_of_one_le hq, ← hk, zpow_natCast]
  exact hdef

/-- Adding 1 to a binary64 value of at least 2^54 rounds back to it. -/
theorem round64_add_one_of_ge {r : ℚ} (hr : round64 r = r) (h : (2 : ℚ) ^ (54 : ℕ) ≤ r) :
    round64 (r + 1) = r := by
  have hq : (1 : ℚ) ≤ r := by
    have : (1 : ℚ) ≤ 2 ^ (54 : ℕ) := by norm_num
    linarith
  have h0 : (0 : ℚ) < r := by linarith
  have hE : 54 ≤ Int.log 2 r := by
    apply le_log_of_pow_le h0
    have h54 : ((2 : ℚ) ^ (54 : Int)) = 2 ^ (54 : ℕ) := by norm_cast
    rw [h54]
    exact h
  have hu := ulp_pos r
  -- the ulp is at least 4
  have hu4 : (4 : ℚ) ≤ ulp r := by
    rw [ulp_of_one_le hq]
    have : (2 : ℚ) ^ (2 : Int) ≤ 2 ^ (Int.log 2 r - 52) :=
      zpow_le_zpow_right₀ (by norm_num) (by omega)
    have h4 : ((2 : ℚ) ^ (2 : Int)) = 4 := by norm_num
    linarith
  -- r is n ulps with n < 2^53
  have hn := div_ulp_of_round64 hr
  obtain ⟨b1, b2⟩ := div_ulp_bounds hq
  set n := roundHalfEven (r / ulp r) with hndef
  have hn53 : n < 2 ^ (53 : ℕ) := by
    have : (n : ℚ) < 2 ^ (53 : ℕ) := by rw [← hn]; exact b2
    exact_mod_cast this
  have hn53q : (n : ℚ) + 1 ≤ 2 ^ (53 : ℕ) := by
    have : n + 1 ≤ 2 ^ (53 : ℕ) := by omega
    exact_mod_cast this
  have hrn : r = n * ulp r := by
    rw [← hn]
    field_simp
  -- r + 1 is in the binade of r
  obtain ⟨s1, s2⟩ := log_spec h0
  have e2 : (2 : ℚ) ^ (Int.log 2 r + 1) = 2 ^ (53 : ℕ) * ulp r := by
    rw [ulp_of_one_le hq, ← zpow_natCast, ← zpow_add₀ (by norm_num)]
    congr 1
    push_cast
    ring
  have hlog : Int.log 2 (r + 1) = Int.log 2 r := by
    apply log_unique
    · linarith
    · rw [e2]
      have : ((n : ℚ) + 1) * ulp r ≤ 2 ^ (53 : ℕ) * ulp r :=
        mul_le_mul_of_nonneg_right hn53q hu.le
      nlinarith
  have hq1 : (1 : ℚ) ≤ r + 1 := by linarith
  have hulp : ulp (r + 1) = ulp r := by
    rw [ulp_of_one_le hq1, ulp_of_one_le hq, hlog]
  unfold round64
  rw [hulp]
  have hround : roundHalfEven ((r + 1) / ulp r) = n := by
    apply roundHalfEven_of_lt_half
    · rw [← hn]
      exact div_le_div_of_nonneg_right (by linarith) hu.le
    · rw [add_div, hn]
      have : 1 / ulp r ≤ 1 / 4 := by
        rw [div_le_div_iff₀ hu (by norm_num)]
        linarith
      linarith
  rw [hround]
  exact hrn.symm

/-- Dividing a binary64 value of at least 2^20 by 2^20 is exact. -/
theorem round64_div {kb : ℚ} (hr : round64 kb = kb) (h : (1024 * 1024 : ℚ) ≤ kb) :
    round64 (kb / (1024 * 1024)) = kb / (1024 * 1024) := by
  have hq : (1 : ℚ) ≤ kb := by linarith
  have h0 : (0 : ℚ) < kb := by linarith
  have hq2 : (1 : ℚ) ≤ kb / (1024 * 1024) := by
    rw [le_div_iff₀ (by norm_num)]
    linarith
  obtain ⟨s1, s2⟩ := log_spec h0
  have hpow : (1024 * 1024 : ℚ) = 2 ^ (20 : Int) := by norm_num
  have hlog : Int.log 2 (kb / (1024 * 1024)) = Int.log 2 kb - 20 := by
    apply log_unique
    · rw [zpow_sub₀ (by norm_num), hpow]
      exact div_le_div_of_nonneg_right s1 (by positivity)
    · have : Int.log 2 kb - 20 + 1 = Int.log 2 kb + 1 - 20 := by ring
      rw [this, zpow_sub₀ (by norm_num), hpow]
      exact div_lt_div_of_pos_right s2 (by positivity)
  have hulp : ulp (kb / (1024 * 1024)) = ulp kb / (1024 * 1024) := by
    rw [ulp_of_one_le hq2, ulp_of_one_le hq, hlog, hpow, ← zpow_sub₀ (by norm_num)]
    congr 1
    ring
  apply round64_of_div_ulp (n := roundHalfEven (kb / ulp kb))
  rw [hulp, ← div_ulp_of_round64 hr]
  have hu := ulp_pos kb
  field_simp

/-! ## Capacity tiers: properties -/

theorem wrapInt64_le (n : Int) : wrapInt64 n ≤ maxInt64 := by
  unfold wrapInt64 maxInt64
  omega

theorem goInt_of_nonneg_of_lt (oor : ℚ → Int) {x : ℚ} (h0 : 0 ≤ x) (h1 : x < 2 ^ (63 : ℕ)) :
    goInt oor x = ⌊x⌋ := by
  have hf0 : (0 : Int) ≤ ⌊x⌋ := Int.floor_nonneg.mpr h0
  have hf1 : ⌊x⌋ < 2 ^ (63 : ℕ) := by
    apply Int.floor_lt.mpr
    exact_mod_cast h1
  unfold goInt minInt64 maxInt64
  simp only [h0, if_true]
  have : -(2 : Int) ^ 63 ≤ ⌊x⌋ ∧ ⌊x⌋ ≤ 2 ^ 63 - 1 := by
    constructor <;> omega
  simp only [this, and_self, if_true]

theorem goInt_le_maxInt64 (oor : ℚ → Int) (x : ℚ) : goInt oor x ≤ maxInt64 := by
  unfold goInt
  simp only
  generalize (if 0 ≤ x then ⌊x⌋ else ⌈x⌉) = t
  by_cases h : minInt64 ≤ t ∧ t ≤ maxInt64
  · rw [if_pos h]
    exact h.2
  · rw [if_neg h]
    exact wrapInt64_le _

theorem round64_one : round64 1 = 1 := by
  have := round64_intCast (n := 1) (by norm_num) (by norm_num)
  simpa using this

/-- A sum with a binary64 value is rounded to no less than that value. -/
theorem le_round64_add {r a : ℚ} (hr : round64 r = r) (h0 : 0 ≤ r) (ha : 1 ≤ a) :
    r ≤ round64 (r + a) := by
  by_cases h1 : 1 ≤ r
  · have := round64_mono h1 (show r ≤ r + a by linarith)
    rwa [hr] at this
  · have := round64_mono (le_refl 1) (show (1 : ℚ) ≤ r + a by linarith)
    rw [round64_one] at this
    push_neg at h1
    linarith

/-- Rounding a value below 2^55 gives at most 2^55. -/
theorem round64_le_of_lt {x : ℚ} (h1 : 1 ≤ x) (h2 : x < 2 ^ (55 : ℕ)) :
    round64 x ≤ 2 ^ (55 : ℕ) := by
  have h0 : 0 < x := by linarith
  have hE : Int.log 2 x < 55 := by
    apply log_le_of_lt_pow h0
    have h55 : ((2 : ℚ) ^ (55 : Int)) = 2 ^ (55 : ℕ) := by norm_cast
    rw [h55]
    exact h2
  have hb := (round64_bounds h1).2
  have hc : (2 : ℚ) ^ (Int.log 2 x + 1) ≤ 2 ^ (55 : Int) :=
    zpow_le_zpow_right₀ (by norm_num) (by omega)
  have h55 : ((2 : ℚ) ^ (55 : Int)) = 2 ^ (55 : ℕ) := by norm_cast
  rw [h55] at hc
  linarith

/-- Below 2^52, the integer part of the rounded sum with an integer `a` is at
least the integer part of the value plus `a`. -/
theorem floor_add_le_floor_round64 {r : ℚ} {a : Int} (h0 : 0 ≤ r) (h1 : r < 2 ^ (52 : ℕ))
    (ha1 : 1 ≤ a) (ha2 : a ≤ 1000) : ⌊r⌋ + a ≤ ⌊round64 (r + a)⌋ := by
  have hf0 : (0 : Int) ≤ ⌊r⌋ := Int.floor_nonneg.mpr h0
  have hf1 : ⌊r⌋ < 2 ^ (52 : ℕ) := by
    apply Int.floor_lt.mpr
    exact_mod_cast h1
  have hn1 : (1 : Int) ≤ ⌊r⌋ + a := by omega
  have hn2 : ⌊r⌋ + a ≤ 2 ^ 53 := by
    norm_num at hf1 ⊢
    omega
  have hfix := round64_intCast hn1 hn2
  have hle : ((⌊r⌋ + a : Int) : ℚ) ≤ r + a := by
    push_cast
    linarith [Int.floor_le r]
  have hone : (1 : ℚ) ≤ ((⌊r⌋ + a : Int) : ℚ) := by exact_mod_cast hn1
  have := round64_mono hone hle
  rw [hfix] at this
  exact Int.le_floor.mpr this

/-- The request of a binary64 size is a binary64 value, not negative for a
size that is not, and the headroom is 1, 100 or 1000. -/
theorem request_facts {kb : ℚ} (hf : isFloat64 kb) (h0 : 0 ≤ kb) :
    round64 (convertToMiGi kb).1 = (convertToMiGi kb).1 ∧
    0 ≤ (convertToMiGi kb).1 ∧
    ((convertToMiGi kb).2.1 = 1 ∨
      ((convertToMiGi kb).1 < 1024 * 1024 ∧
        ((convertToMiGi kb).2.1 = 100 ∨ (convertToMiGi kb).2.1 = 1000))) := by
  unfold convertToMiGi
  by_cases hG : kb ≥ 1024 * 1024
  · rw [if_pos hG]
    exact ⟨round64_div hf.1 hG, by positivity, Or.inl rfl⟩
  · by_cases hM : kb ≥ 1024
    · rw [if_neg hG, if_pos hM]
      push_neg at hG
      exact ⟨hf.1, h0, Or.inr ⟨hG, Or.inl rfl⟩⟩
    · rw [if_neg hG, if_neg hM]
      push_neg at hG
      exact ⟨hf.1, h0, Or.inr ⟨hG, Or.inr rfl⟩⟩

/-- The rounded sum of a request below 2^63 is below 2^63. -/
theorem actual_lt_of_request_lt {r a : ℚ} (hr : round64 r = r) (h0 : 0 ≤ r)
    (ha : a = 1 ∨ (r < 1024 * 1024 ∧ (a = 100 ∨ a = 1000))) (h63 : r < 2 ^ (63 : ℕ)) :
    round64 (r + a) < 2 ^ (63 : ℕ) := by
  by_cases hbig : (2 : ℚ) ^ (54 : ℕ) ≤ r
  · rcases ha with h1 | ⟨hlt, _⟩
    · rw [h1, round64_add_one_of_ge hr hbig]
      exact h63
    · exfalso
      norm_num at hbig
      linarith
  · push_neg at hbig
    have hsum1 : (1 : ℚ) ≤ r + a := by
      rcases ha with h1 | ⟨_, h1 | h1⟩ <;> rw [h1] <;> linarith
    have hsum2 : r + a < 2 ^ (55 : ℕ) := by
      norm_num at hbig ⊢
      rcases ha with h1 | ⟨_, h1 | h1⟩ <;> rw [h1] <;> linarith
    have := round64_le_of_lt hsum1 hsum2
    have h5563 : (2 : ℚ) ^ (55 : ℕ) < 2 ^ (63 : ℕ) := by norm_num
    linarith

/-- C1: `convertToMiGi kb` is `(kb / (1024*1024), 1, "Gi")` from `1024*1024`
upward, `(kb, 100, "Mi")` from `1024` up to but excluding `1024*1024`, and
`(kb, 1000, "Ki")` below `1024`; `1024` itself is in the Mi tier and
`1024*1024` in the Gi tier. It holds for every size, the non-negative ones
included. -/
theorem convertToMiGi_tiers (kb : ℚ) :
    (1024 * 1024 ≤ kb → convertToMiGi kb = (kb / (1024 * 1024), 1, "Gi")) ∧
    (1024 ≤ kb → kb < 1024 * 1024 → convertToMiGi kb = (kb, 100, "Mi")) ∧
    (kb < 1024 → convertToMiGi kb = (kb, 1000, "Ki")) ∧
    convertToMiGi 1024 = (1024, 100, "Mi") ∧
    convertToMiGi (1024 * 1024) = (1, 1, "Gi") := by
  refine ⟨?_, ?_, ?_, ?_, ?_⟩
  · intro h
    simp [convertToMiGi, h]
  · intro h1 h2
    have h3 : ¬ (kb ≥ 1024 * 1024) := not_le.mpr h2
    simp only [convertToMiGi, h3, if_false, ge_iff_le, h1, if_true]
  · intro h
    have h1 : ¬ (kb ≥ 1024) := not_le.mpr h
    have h3 : ¬ (kb ≥ 1024 * 1024) := by
      intro h4
      apply h1
      linarith
    simp only [convertToMiGi, h3, if_false, h1]
  · norm_num [convertToMiGi]
  · norm_num [convertToMiGi]

/-- C1 at the spec's sample sizes: 2,000,000 KB is in the Gi tier, 500 KB in
the Ki tier. -/
theorem convertToMiGi_tiers_witness :
    convertToMiGi 2000000 = (2000000 / (1024 * 1024), 1, "Gi") ∧
      convertToMiGi 500 = (500, 1000, "Ki") :=
  ⟨(convertToMiGi_tiers 2000000).1 (by norm_num),
    (convertToMiGi_tiers 500).2.2.1 (by norm_num)⟩

/-- C2: for every `float64` size `kb ≥ 0`, with
`(request, addition, unit) = convertToMiGi kb` and `actual` the float64 sum
`request + addition`, `actual` is at least `request`, and the integer that
`int(actual)` renders into `actualSize` is at least the integer that
`int(request)` renders into `requestSize`, both followed by the same unit;
this holds whatever the implementation yields for `int(x)` outside the range
of `int`. -/
theorem actual_ge_request (outOfRange : ℚ → Int) (kb : ℚ) (hf : isFloat64 kb) (h0 : 0 ≤ kb) :
    (capacityPlan outOfRange kb).request ≤ (capacityPlan outOfRange kb).actual ∧
    goInt outOfRange (capacityPlan outOfRange kb).request ≤
      goInt outOfRange (capacityPlan outOfRange kb).actual ∧
    (capacityPlan outOfRange kb).requestSize =
      Sprintf (goInt outOfRange (capacityPlan outOfRange kb).request)
        (capacityPlan outOfRange kb).unit ∧
    (capacityPlan outOfRange kb).actualSize =
      Sprintf (goInt outOfRange (capacityPlan outOfRange kb).actual)
        (capacityPlan outOfRange kb).unit ∧
    ((capacityPlan outOfRange kb).request, (capacityPlan outOfRange kb).addition,
        (capacityPlan outOfRange kb).unit) = convertToMiGi kb ∧
    (capacityPlan outOfRange kb).actual =
      round64 ((capacityPlan outOfRange kb).request + (capacityPlan outOfRange kb).addition) := by
  obtain ⟨hr, hr0, ha⟩ := request_facts hf h0
  have ha1 : (1 : ℚ) ≤ (convertToMiGi kb).2.1 := by
    rcases ha with h | ⟨_, h | h⟩ <;> rw [h] <;> norm_num
  have hle : (convertToMiGi kb).1 ≤ round64 ((convertToMiGi kb).1 + (convertToMiGi kb).2.1) :=
    le_round64_add hr hr0 ha1
  refine ⟨hle, ?_, rfl, rfl, rfl, rfl⟩
  show goInt outOfRange (convertToMiGi kb).1 ≤
    goInt outOfRange (round64 ((convertToMiGi kb).1 + (convertToMiGi kb).2.1))
  by_cases hbig : (2 : ℚ) ^ (54 : ℕ) ≤ (convertToMiGi kb).1
  · rcases ha with h1 | ⟨hlt, _⟩
    · rw [h1, round64_add_one_of_ge hr hbig]
    · exfalso
      norm_num at hbig
      linarith
  · push_neg at hbig
    have h63 : (convertToMiGi kb).1 < 2 ^ (63 : ℕ) := by
      have : (2 : ℚ) ^ (54 : ℕ) < 2 ^ (63 : ℕ) := by norm_num
      linarith
    have hA := actual_lt_of_request_lt hr hr0 ha h63
    rw [goInt_of_nonneg_of_lt outOfRange hr0 h63,
      goInt_of_nonneg_of_lt outOfRange (le_trans hr0 hle) hA]
    exact Int.floor_mono hle

/-- C2 at 2,000,000 KB, a `float64` value, with the conversion of amd64. -/
theorem actual_ge_request_witness :
    isFloat64 2000000 ∧
      (capacityPlan (fun _ => minInt64) 2000000).request ≤
        (capacityPlan (fun _ => minInt64) 2000000).actual ∧
      goInt (fun _ => minInt64) (capacityPlan (fun _ => minInt64) 2000000).request ≤
        goInt (fun _ => minInt64) (capacityPlan (fun _ => minInt64) 2000000).actual :=
  have hf : isFloat64 2000000 :=
    ⟨by simpa using round64_intCast (n := 2000000) (by norm_num) (by norm_num), by norm_num⟩
  have h := actual_ge_request (fun _ => minInt64) 2000000 hf (by norm_num)
  ⟨hf, h.1, h.2.1⟩

/-- Powers of two from 2^0 to 2^1023 are binary64 values. -/
theorem isFloat64_two_pow (k : ℕ) (hk : k < 1024) : isFloat64 ((2 : ℚ) ^ k) := by
  have h1 : (1 : ℚ) ≤ 2 ^ k := one_le_pow₀ (by norm_num)
  have hlog : Int.log 2 ((2 : ℚ) ^ k) = k := by
    apply log_unique
    · rw [zpow_natCast]
    · rw [← zpow_natCast]
      exact zpow_lt_zpow_right₀ (by norm_num) (by omega)
  constructor
  · apply round64_of_div_ulp (n := 2 ^ 52)
    rw [ulp_of_one_le h1, hlog, ← zpow_natCast, ← zpow_sub₀ (by norm_num)]
    norm_num
  · rw [abs_of_pos (by positivity)]
    exact pow_lt_pow_right₀ (by norm_num) hk

/-- C10 fails at the `float64` size `2 ^ 83` KB: the request is `2 ^ 63` Gi,
the float64 sum with 1 is `2 ^ 63` again, which does not fit `int`; whatever
`int` the implementation yields for it, that many Gi are less than the
`2 ^ 93` bytes measured. -/
theorem volumeBytes_lt_size_at_2_pow_83 :
    isFloat64 ((2 : ℚ) ^ 83) ∧
    ¬ ∃ outOfRange : ℚ → Int,
      (2 : ℚ) ^ 83 * 1024 ≤ ((volumeBytes outOfRange (2 ^ 83) : Int) : ℚ) := by
  refine ⟨isFloat64_two_pow 83 (by norm_num), ?_⟩
  rintro ⟨oor, h⟩
  have hu : unitBytes "Gi" = 1024 ^ 3 := by decide
  have hc : convertToMiGi (2 ^ 83) = ((2 : ℚ) ^ 63, 1, "Gi") := by
    norm_num [convertToMiGi]
  have hr : round64 ((2 : ℚ) ^ 63 + 1) = 2 ^ 63 :=
    round64_add_one_of_ge (isFloat64_two_pow 63 (by norm_num)).1 (by norm_num)
  have hv : volumeBytes oor (2 ^ 83) = goInt oor (2 ^ 63) * 1024 ^ 3 := by
    simp only [volumeBytes, capacityPlan, hc, hu, hr]
  rw [hv] at h
  have hg := goInt_le_maxInt64 oor (2 ^ 63)
  have h2 : ((2 : Int) ^ 83 * 1024 : Int) ≤ goInt oor (2 ^ 63) * 1024 ^ 3 := by
    exact_mod_cast h
  unfold maxInt64 at hg
  omega

/-- C10, amended: for every `float64` size `0 ≤ kb < 2 ^ 83` KB (the request
is below `2 ^ 63` of its unit, so that the magnitudes fit `int`), the capacity
rendered for the volume, in bytes, is at least the `kb * 1024` bytes
measured. -/
theorem volumeBytes_ge_size (outOfRange : ℚ → Int) (kb : ℚ) (hf : isFloat64 kb)
    (h0 : 0 ≤ kb) (h1 : kb < 2 ^ 83) :
    kb * 1024 ≤ ((volumeBytes outOfRange kb : Int) : ℚ) := by
  obtain ⟨hr, hr0, ha⟩ := request_facts hf h0
  have ha1 : (1 : ℚ) ≤ (convertToMiGi kb).2.1 := by
    rcases ha with h | ⟨_, h | h⟩ <;> rw [h] <;> norm_num
  have hle := le_round64_add hr hr0 ha1
  have h63 : (convertToMiGi kb).1 < 2 ^ (63 : ℕ) := by
    unfold convertToMiGi
    split_ifs
    · rw [div_lt_iff₀ (by norm_num)]
      norm_num at h1 ⊢
      linarith
    · norm_num at h1 ⊢
      linarith
    · norm_num at h1 ⊢
      linarith
  have hA := actual_lt_of_request_lt hr hr0 ha h63
  have hgo : goInt outOfRange (round64 ((convertToMiGi kb).1 + (convertToMiGi kb).2.1)) =
      ⌊round64 ((convertToMiGi kb).1 + (convertToMiGi kb).2.1)⌋ :=
    goInt_of_nonneg_of_lt outOfRange (le_trans hr0 hle) hA
  -- the request is at most the integer part of the rounded sum
  have hfl : (convertToMiGi kb).1 ≤
      ((⌊round64 ((convertToMiGi kb).1 + (convertToMiGi kb).2.1)⌋ : Int) : ℚ) := by
    by_cases hbig : (2 : ℚ) ^ (52 : ℕ) ≤ (convertToMiGi kb).1
    · obtain ⟨m, hm⟩ := int_of_round64_of_ge hr hbig
      have : m ≤ ⌊round64 ((convertToMiGi kb).1 + (convertToMiGi kb).2.1)⌋ := by
        apply Int.le_floor.mpr
        rw [← hm]
        exact hle
      have hq : (m : ℚ) ≤
          ((⌊round64 ((convertToMiGi kb).1 + (convertToMiGi kb).2.1)⌋ : Int) : ℚ) := by
        exact_mod_cast this
      linarith
    · push_neg at hbig
      have key : ∀ a : Int, 1 ≤ a → a ≤ 1000 → (convertToMiGi kb).2.1 = a →
          (convertToMiGi kb).1 ≤
            ((⌊round64 ((convertToMiGi kb).1 + (convertToMiGi kb).2.1)⌋ : Int) : ℚ) := by
        intro a h1a h2a hae
        have := floor_add_le_floor_round64 (a := a) hr0 hbig h1a h2a
        rw [← hae] at this
        have hq : ((⌊(convertToMiGi kb).1⌋ + a : Int) : ℚ) ≤
            ((⌊round64 ((convertToMiGi kb).1 + (convertToMiGi kb).2.1)⌋ : Int) : ℚ) := by
          exact_mod_cast this
        have hlt := Int.lt_floor_add_one (convertToMiGi kb).1
        have h1q : (1 : ℚ) ≤ a := by exact_mod_cast h1a
        push_cast at hq
        linarith
      rcases ha with h | ⟨_, h | h⟩
      · exact key 1 (by norm_num) (by norm_num) (by rw [h]; norm_num)
      · exact key 100 (by norm_num) (by norm_num) (by rw [h]; norm_num)
      · exact key 1000 (by norm_num) (by norm_num) (by rw [h]; norm_num)
  have hv : volumeBytes outOfRange kb =
      ⌊round64 ((convertToMiGi kb).1 + (convertToMiGi kb).2.1)⌋ *
        unitBytes (convertToMiGi kb).2.2 := by
    simp only [volumeBytes, capacityPlan, hgo]
  rw [hv]
  generalize ⌊round64 ((convertToMiGi kb).1 + (convertToMiGi kb).2.1)⌋ = n at hfl ⊢
  unfold convertToMiGi at hfl ⊢
  by_cases hG : kb ≥ 1024 * 1024
  · have hu : unitBytes "Gi" = 1024 ^ 3 := by decide
    rw [if_pos hG] at hfl ⊢
    simp only [hu]
    have hkb : kb = kb / (1024 * 1024) * (1024 * 1024) := by field_simp
    push_cast
    nlinarith
  · by_cases hM : kb ≥ 1024
    · have hu : unitBytes "Mi" = 1024 ^ 2 := by decide
      rw [if_neg hG, if_pos hM] at hfl ⊢
      simp only [hu]
      push_cast
      nlinarith
    · have hu : unitBytes "Ki" = 1024 := by decide
      rw [if_neg hG, if_neg hM] at hfl ⊢
      simp only [hu]
      push_cast
      nlinarith

/-- C10, amended, at 2,000,000 KB, a `float64` value, with the conversion of
amd64. -/
theorem volumeBytes_ge_size_witness :
    isFloat64 2000000 ∧
      (2000000 : ℚ) * 1024 ≤ ((volumeBytes (fun _ => minInt64) 2000000 : Int) : ℚ) :=
  have hf : isFloat64 2000000 :=
    ⟨by simpa using round64_intCast (n := 2000000) (by norm_num) (by norm_num), by norm_num⟩
  ⟨hf, volumeBytes_ge_size (fun _ => minInt64) 2000000 hf (by norm_num) (by norm_num)⟩

/-- A tie above an odd integer goes up, to the even one. -/
theorem roundHalfEven_tie_odd {x : ℚ} {n : Int} (hx : x = n + 1 / 2) (hn : n % 2 = 1) :
    roundHalfEven x = n + 1 := by
  have hf : ⌊x⌋ = n := by
    rw [Int.floor_eq_iff, hx]
    constructor <;> linarith
  unfold roundHalfEven
  rw [hf]
  have h1 : ¬ (x - (n : ℚ) < 1 / 2) := by rw [hx]; norm_num
  have h2 : ¬ (1 / 2 < x - (n : ℚ)) := by rw [hx]; norm_num
  have h3 : ¬ (n % 2 = 0) := by omega
  rw [if_neg h1, if_neg h2, if_neg h3]

/-- The float64 sum at the size `1024 - 2 ^ -43` KB, the greatest below 1024:
`kb + 1000` is halfway between two binary64 values and rounds up to 2024, so
the volume is rendered as `2024Ki`. -/
theorem actualSize_below_1024 (outOfRange : ℚ → Int) :
    isFloat64 (1024 - 1 / 2 ^ 43) ∧
    (capacityPlan outOfRange (1024 - 1 / 2 ^ 43)).actual = 2024 ∧
    (capacityPlan outOfRange (1024 - 1 / 2 ^ 43)).actualSize = "2024Ki" ∧
    (capacityPlan outOfRange (1024 - 1 / 2 ^ 43)).requestSize = "1023Ki" := by
  have hc : convertToMiGi (1024 - 1 / 2 ^ 43) = ((1024 - 1 / 2 ^ 43 : ℚ), 1000, "Ki") := by
    norm_num [convertToMiGi]
  have hfl : isFloat64 (1024 - 1 / 2 ^ 43) := by
    have h1 : (1 : ℚ) ≤ 1024 - 1 / 2 ^ 43 := by norm_num
    have hlog : Int.log 2 (1024 - 1 / 2 ^ 43 : ℚ) = 9 := by
      apply log_unique <;> norm_num
    constructor
    · apply round64_of_div_ulp (n := 2 ^ 53 - 1)
      rw [ulp_of_one_le h1, hlog]
      norm_num
    · rw [abs_of_pos (by norm_num)]
      norm_num
  have hsum : round64 ((1024 - 1 / 2 ^ 43 : ℚ) + 1000) = 2024 := by
    have h1 : (1 : ℚ) ≤ (1024 - 1 / 2 ^ 43 : ℚ) + 1000 := by norm_num
    have hlog : Int.log 2 ((1024 - 1 / 2 ^ 43 : ℚ) + 1000) = 10 := by
      apply log_unique <;> norm_num
    have hulp : ulp ((1024 - 1 / 2 ^ 43 : ℚ) + 1000) = 1 / 2 ^ 42 := by
      rw [ulp_of_one_le h1, hlog]
      norm_num
    unfold round64
    rw [hulp, roundHalfEven_tie_odd (n := 2024 * 2 ^ 42 - 1) (by norm_num) (by norm_num)]
    norm_num
  have hg1 : goInt outOfRange 2024 = 2024 := by
    rw [goInt_of_nonneg_of_lt outOfRange (by norm_num) (by norm_num)]
    exact Int.floor_intCast 2024
  have hg2 : goInt outOfRange (1024 - 1 / 2 ^ 43) = 1023 := by
    rw [goInt_of_nonneg_of_lt outOfRange (by norm_num) (by norm_num), Int.floor_eq_iff]
    norm_num
  refine ⟨hfl, ?_, ?_, ?_⟩
  · simp only [capacityPlan, hc, hsum]
  · simp only [capacityPlan, hc, hsum, hg1]
    decide
  · simp only [capacityPlan, hc, hg2]
    decide

/-- The float64 sum at the size `2 ^ 73` KB: the request is `2 ^ 53` Gi and
`2 ^ 53 + 1` rounds back to `2 ^ 53`, so the volume and the claim are both
rendered as `9007199254740992Gi`. -/
theorem actualSize_at_2_pow_73 (outOfRange : ℚ → Int) :
    isFloat64 ((2 : ℚ) ^ 73) ∧
    (capacityPlan outOfRange (2 ^ 73)).actual = 2 ^ 53 ∧
    (capacityPlan outOfRange (2 ^ 73)).actualSize = "9007199254740992Gi" ∧
    (capacityPlan outOfRange (2 ^ 73)).requestSize = "9007199254740992Gi" := by
  have hc : convertToMiGi (2 ^ 73) = ((2 : ℚ) ^ 53, 1, "Gi") := by
    norm_num [convertToMiGi]
  have hsum : round64 ((2 : ℚ) ^ 53 + 1) = 2 ^ 53 := by
    have h1 : (1 : ℚ) ≤ (2 : ℚ) ^ 53 + 1 := by norm_num
    have hlog : Int.log 2 ((2 : ℚ) ^ 53 + 1) = 53 := by
      apply log_unique <;> norm_num
    have hulp : ulp ((2 : ℚ) ^ 53 + 1) = 2 := by
      rw [ulp_of_one_le h1, hlog]
      norm_num
    unfold round64
    have hr : roundHalfEven (((2 : ℚ) ^ 53 + 1) / 2) = 2 ^ 52 := by
      have hx : ((2 : ℚ) ^ 53 + 1) / 2 = ((2 ^ 52 : Int) : ℚ) + 1 / 2 := by norm_num
      have hf : ⌊((2 : ℚ) ^ 53 + 1) / 2⌋ = 2 ^ 52 := by
        rw [Int.floor_eq_iff, hx]
        constructor <;> norm_num
      unfold roundHalfEven
      rw [hf]
      have h1 : ¬ (((2 : ℚ) ^ 53 + 1) / 2 - ((2 ^ 52 : Int) : ℚ) < 1 / 2) := by norm_num
      have h2 : ¬ (1 / 2 < ((2 : ℚ) ^ 53 + 1) / 2 - ((2 ^ 52 : Int) : ℚ)) := by norm_num
      rw [if_neg h1, if_neg h2, if_pos (by norm_num)]
    rw [hulp, hr]
    norm_num
  have hg : goInt outOfRange ((2 : ℚ) ^ 53) = 2 ^ 53 := by
    rw [goInt_of_nonneg_of_lt outOfRange (by norm_num) (by norm_num), Int.floor_eq_iff]
    norm_num
  refine ⟨isFloat64_two_pow 73 (by norm_num), ?_, ?_, ?_⟩
  · simp only [capacityPlan, hc, hsum]
  · simp only [capacityPlan, hc, hsum, hg]
    decide
  · simp only [capacityPlan, hc, hg]
    decide

/-- The float64 sum at the size `2 ^ 21 - 2 ^ -32` KB, the greatest below
`2 ^ 21`: the request is `2 - 2 ^ -52` Gi, rendered as `1Gi`, and its sum
with 1 is halfway between two binary64 values and rounds up to 3, so the
volume is rendered as `3Gi`. -/
theorem actualSize_below_2_pow_21 (outOfRange : ℚ → Int) :
    isFloat64 (2097152 - 1 / 2 ^ 32) ∧
    (capacityPlan outOfRange (2097152 - 1 / 2 ^ 32)).actual = 3 ∧
    (capacityPlan outOfRange (2097152 - 1 / 2 ^ 32)).actualSize = "3Gi" ∧
    (capacityPlan outOfRange (2097152 - 1 / 2 ^ 32)).requestSize = "1Gi" := by
  have hc : convertToMiGi (2097152 - 1 / 2 ^ 32) = ((2 - 1 / 2 ^ 52 : ℚ), 1, "Gi") := by
    norm_num [convertToMiGi]
  have hfl : isFloat64 (2097152 - 1 / 2 ^ 32) := by
    have h1 : (1 : ℚ) ≤ 2097152 - 1 / 2 ^ 32 := by norm_num
    have hlog : Int.log 2 (2097152 - 1 / 2 ^ 32 : ℚ) = 20 := by
      apply log_unique <;> norm_num
    constructor
    · apply round64_of_div_ulp (n := 2 ^ 53 - 1)
      rw [ulp_of_one_le h1, hlog]
      norm_num
    · rw [abs_of_pos (by norm_num)]
      norm_num
  have hsum : round64 ((2 - 1 / 2 ^ 52 : ℚ) + 1) = 3 := by
    have h1 : (1 : ℚ) ≤ (2 - 1 / 2 ^ 52 : ℚ) + 1 := by norm_num
    have hlog : Int.log 2 ((2 - 1 / 2 ^ 52 : ℚ) + 1) = 1 := by
      apply log_unique <;> norm_num
    have hulp : ulp ((2 - 1 / 2 ^ 52 : ℚ) + 1) = 1 / 2 ^ 51 := by
      rw [ulp_of_one_le h1, hlog]
      norm_num
    unfold round64
    rw [hulp, roundHalfEven_tie_odd (n := 3 * 2 ^ 51 - 1) (by norm_num) (by norm_num)]
    norm_num
  have hg1 : goInt outOfRange 3 = 3 := by
    rw [goInt_of_nonneg_of_lt outOfRange (by norm_num) (by norm_num)]
    exact Int.floor_intCast 3
  have hg2 : goInt outOfRange (2 - 1 / 2 ^ 52) = 1 := by
    rw [goInt_of_nonneg_of_lt outOfRange (by norm_num) (by norm_num), Int.floor_eq_iff]
    norm_num
  refine ⟨hfl, ?_, ?_, ?_⟩
  · simp only [capacityPlan, hc, hsum]
  · simp only [capacityPlan, hc, hsum, hg1]
    decide
  · simp only [capacityPlan, hc, hg2]
    decide

/-! ## Derived names: properties -/

/-- The pod name, with the concatenation of line 82 spelled out. -/
theorem derivePodName_eq (m : String → String) (repo u : String) :
    derivePodName m repo u =
      if (ReplaceAll (ToLower m repo) '_' '-' ++ "-" ++ u).length > 63 then
        String.mk ((ReplaceAll (ToLower m repo) '_' '-' ++ "-" ++ u).data.take 62)
      else ReplaceAll (ToLower m repo) '_' '-' ++ "-" ++ u := rfl

/-- A concatenation of at most 63 bytes is the pod name as it stands. -/
theorem derivePodName_of_le (m : String → String) (repo u : String)
    (h : (ReplaceAll (ToLower m repo) '_' '-' ++ "-" ++ u).length ≤ 63) :
    derivePodName m repo u = ReplaceAll (ToLower m repo) '_' '-' ++ "-" ++ u := by
  rw [derivePodName_eq]
  have h2 : ¬ (ReplaceAll (ToLower m repo) '_' '-' ++ "-" ++ u).length > 63 := by omega
  simp only [h2, if_false]

/-- The pod and the container of every pod creation that `ProcessRequest`
issues carry the derived pod name. -/
theorem created_pod_name (rt : Runtime) (rm : ResourceManager) (req : QueuedScan)
    (ns : String) (pod : Pod) (e : Option GoError)
    (h : Event.mk (.CreatePod ns pod) e ∈ (ProcessRequest rt rm req).events) :
    pod.Name = derivePodName rt.mapRunes req.RepoName rt.NewString ∧
    pod.Containers.map (fun c => c.Name) =
      [derivePodName rt.mapRunes req.RepoName rt.NewString] := by
  unfold ProcessRequest at h
  simp only at h
  split at h
  · simp at h
  split at h
  · simp at h
  split at h
  · simp at h
    rw [h.1.2]
    simp [newPod]
  split at h
  · simp at h
    rw [h.1.2]
    simp [newPod]
  split at h
  · simp at h
    rw [h.1.2]
    simp [newPod]
  · simp at h
    rw [h.1.2]
    simp [newPod]

/-- C3 fails for a repository name of 26 characters: with the hyphen and the
36 characters of the identity the pod name has 63 characters, which the test
`len(podName) > 63` lets through. -/
theorem podName_length_63 :
    ¬ ((derivePodName id "aaaaaaaaaaaaaaaaaaaaaaaaaa"
          "123e4567-e89b-42d3-a456-426614174000").length ≤ 62) := by
  decide

/-- C3, amended: for every repository name and every identity the derived pod
name has at most 63 characters; when the concatenation has more than 63 it is
cut to its first 62, and otherwise it is kept whole. -/
theorem podName_length_le_63 (m : String → String) (repo u : String) :
    (derivePodName m repo u).length ≤ 63 ∧
    (63 < (ReplaceAll (ToLower m repo) '_' '-' ++ "-" ++ u).length →
      derivePodName m repo u =
        String.mk ((ReplaceAll (ToLower m repo) '_' '-' ++ "-" ++ u).data.take 62) ∧
      (derivePodName m repo u).length = 62) ∧
    ((ReplaceAll (ToLower m repo) '_' '-' ++ "-" ++ u).length ≤ 63 →
      derivePodName m repo u = ReplaceAll (ToLower m repo) '_' '-' ++ "-" ++ u) := by
  refine ⟨?_, ?_, derivePodName_of_le m repo u⟩
  · rw [derivePodName_eq]
    generalize ReplaceAll (ToLower m repo) '_' '-' ++ "-" ++ u = s
    split_ifs with h
    · simp only [String.length, List.length_take]
      omega
    · omega
  · rw [derivePodName_eq]
    generalize ReplaceAll (ToLower m repo) '_' '-' ++ "-" ++ u = s
    intro h
    have h2 : s.length > 63 := h
    simp only [h2, if_true, true_and]
    have h3 : 63 < s.data.length := h
    simp only [String.length, List.length_take]
    omega

/-- C4 at a repository name of 27 characters and two identities of 36
characters that differ in their last one: the concatenation has 64
characters, the cut to 62 drops the last two of the identity, and the two
runs get one pod name, while their volume and claim names, which keep the
identity whole, are distinct. -/
theorem podName_collision :
    ("123e4567-e89b-42d3-a456-426614174000".length = 36 ∧
      "123e4567-e89b-42d3-a456-426614174001".length = 36 ∧
      "123e4567-e89b-42d3-a456-426614174000" ≠ "123e4567-e89b-42d3-a456-426614174001") ∧
    derivePodName id "scan-queue-processor-mirror" "123e4567-e89b-42d3-a456-426614174000" =
      derivePodName id "scan-queue-processor-mirror" "123e4567-e89b-42d3-a456-426614174001" ∧
    derivePodName id "scan-queue-processor-mirror" "123e4567-e89b-42d3-a456-426614174000" =
      "scan-queue-processor-mirror-123e4567-e89b-42d3-a456-4266141740" ∧
    "trufflehog-pv-" ++ "123e4567-e89b-42d3-a456-426614174000" ≠
      "trufflehog-pv-" ++ "123e4567-e89b-42d3-a456-426614174001" ∧
    "trufflehog-pvc-" ++ "123e4567-e89b-42d3-a456-426614174000" ≠
      "trufflehog-pvc-" ++ "123e4567-e89b-42d3-a456-426614174001" := by
  decide

/-- A pod name that is not truncated keeps the identity: when the lowercased,
hyphenated repository name has at most 26 characters, two distinct identities
of 36 characters give distinct pod names, each ending with its identity. -/
theorem podName_unique_of_short (m : String → String) (repo u1 u2 : String)
    (hrepo : (ReplaceAll (ToLower m repo) '_' '-').length ≤ 26)
    (h1 : u1.length = 36) (h2 : u2.length = 36) (hne : u1 ≠ u2) :
    derivePodName m repo u1 ≠ derivePodName m repo u2 ∧
    (∃ p, derivePodName m repo u1 = p ++ u1) ∧
    (∃ p, derivePodName m repo u2 = p ++ u2) := by
  have hlen : ∀ u : String, u.length = 36 →
      derivePodName m repo u = ReplaceAll (ToLower m repo) '_' '-' ++ "-" ++ u := by
    intro u hu
    apply derivePodName_of_le
    have : ("-" : String).length = 1 := rfl
    simp only [String.length_append, hu, this]
    omega
  rw [hlen u1 h1, hlen u2 h2]
  refine ⟨?_, ⟨_, rfl⟩, ⟨_, rfl⟩⟩
  intro h
  apply hne
  have h3 := congrArg String.data h
  simp only [String.data_append] at h3
  have h4 := List.append_cancel_left h3
  exact String.ext h4

/-- C5 at a repository name of 61 letters and a canonical identity: the
concatenation has 98 characters, its first 62 are the 61 letters and the
separating hyphen, so the pod name ends with a hyphen and is not a DNS
label. -/
theorem podName_trailing_hyphen :
    isPlainRepoName "aaaaaaaaaaaaaaaaaaaaaaaaaaaaaaaaaaaaaaaaaaaaaaaaaaaaaaaaaaaaa" = true ∧
    isCanonicalUUID "123e4567-e89b-42d3-a456-426614174000" = true ∧
    derivePodName id "aaaaaaaaaaaaaaaaaaaaaaaaaaaaaaaaaaaaaaaaaaaaaaaaaaaaaaaaaaaaa"
        "123e4567-e89b-42d3-a456-426614174000" =
      "aaaaaaaaaaaaaaaaaaaaaaaaaaaaaaaaaaaaaaaaaaaaaaaaaaaaaaaaaaaaa-" ∧
    isDNSLabel (derivePodName id "aaaaaaaaaaaaaaaaaaaaaaaaaaaaaaaaaaaaaaaaaaaaaaaaaaaaaaaaaaaaa"
        "123e4567-e89b-42d3-a456-426614174000") = false := by
  decide

/-! ## The provisioning sequence: properties -/

/-- C6: in every run that returns `nil`, the claim that was created has
exactly one owner reference, of kind `Pod`, with the name and the UID of the
pod that the pod creation returned; its storage request is `requestSize`,
and `actualSize` is the capacity of the volume. -/
theorem claim_owned_by_created_pod (rt : Runtime) (rm : ResourceManager) (req : QueuedScan)
    (h : (ProcessRequest rt rm req).outcome = .returned none) :
    ∃ size pv pod createdPod pvc upd,
      rm.scmClient.GetRepoSize req = .ok size ∧
      (ProcessRequest rt rm req).events =
        [⟨.CreatePersistentVolume pv, none⟩, ⟨.CreatePod rm.namespace_ pod, none⟩,
         ⟨.CreatePersistentVolumeClaim rm.namespace_ pvc, none⟩, ⟨upd, none⟩] ∧
      rm.k8Client.CreatePod rm.namespace_ pod = .ok createdPod ∧
      pvc.OwnerReferences =
        [{ APIVersion := "v1", Kind := "Pod", Name := createdPod.Name, UID := createdPod.UID }] ∧
      pvc.StorageRequest = (capacityPlan rt.intOutOfRange size).requestSize ∧
      pv.Capacity = (capacityPlan rt.intOutOfRange size).actualSize := by
  unfold ProcessRequest at h ⊢
  simp only at h ⊢
  split at h
  · simp at h
  split at h
  · simp at h
  split at h
  · simp at h
  split at h
  · simp at h
  split at h
  · simp at h
  · rename_i _ size h1 _ _ h2 _ createdPod h3 _ _ h4 _ _ h5
    exact ⟨size, _, _, createdPod, _, _, h1, rfl, h3, rfl, rfl, rfl⟩

/-- C6 for the sample request with collaborators that all succeed. -/
theorem claim_owned_by_created_pod_witness :
    (ProcessRequest sampleRuntime healthyManager sampleRequest).outcome = .returned none ∧
    ∃ size pv pod createdPod pvc upd,
      healthyManager.scmClient.GetRepoSize sampleRequest = .ok size ∧
      (ProcessRequest sampleRuntime healthyManager sampleRequest).events =
        [⟨.CreatePersistentVolume pv, none⟩, ⟨.CreatePod healthyManager.namespace_ pod, none⟩,
         ⟨.CreatePersistentVolumeClaim healthyManager.namespace_ pvc, none⟩, ⟨upd, none⟩] ∧
      healthyManager.k8Client.CreatePod healthyManager.namespace_ pod = .ok createdPod ∧
      pvc.OwnerReferences =
        [{ APIVersion := "v1", Kind := "Pod", Name := createdPod.Name, UID := createdPod.UID }] ∧
      pvc.StorageRequest = (capacityPlan sampleRuntime.intOutOfRange size).requestSize ∧
      pv.Capacity = (capacityPlan sampleRuntime.intOutOfRange size).actualSize :=
  ⟨rfl, claim_owned_by_created_pod sampleRuntime healthyManager sampleRequest rfl⟩

/-- C7: in every run the calls issued are an initial part of the sequence
volume creation, pod creation, claim creation, status update; each is
recorded with the answer of its collaborator; every call but the last one
issued succeeded, so that after a failed creation nothing more is issued;
and a status update is issued only as the fourth call, after the three
creations succeeded, and sets the status `Scheduled`. -/
theorem scheduled_only_after_creations (rt : Runtime) (rm : ResourceManager)
    (req : QueuedScan) :
    (ProcessRequest rt rm req).events.map (fun ev => ev.call.stage) <+: [0, 1, 2, 3] ∧
    (∀ ev ∈ (ProcessRequest rt rm req).events, ev.err = answer rm ev.call) ∧
    (∀ ev ∈ (ProcessRequest rt rm req).events.dropLast, ev.err = none) ∧
    (∀ upd ∈ (ProcessRequest rt rm req).events, upd.call.stage = 3 →
      ∃ pv ns pod pvc sid id,
        (ProcessRequest rt rm req).events =
          [⟨.CreatePersistentVolume pv, none⟩, ⟨.CreatePod ns pod, none⟩,
           ⟨.CreatePersistentVolumeClaim ns pvc, none⟩, upd] ∧
        upd.call = .ExecContext "Scheduled" sid id) := by
  unfold ProcessRequest
  simp only
  split
  · simp
  split
  · rename_i h1
    simp [Call.stage, answer, errOf, h1]
  split
  · rename_i h1 _ _ h2
    simp [Call.stage, answer, errOf, h1, h2]
  split
  · rename_i h1 _ _ h2 _ _ h3
    simp [Call.stage, answer, errOf, h1, h2, h3]
  split
  · rename_i h1 _ _ h2 _ _ h3 _ _ h4
    simp [Call.stage, answer, errOf, h1, h2, h3, h4]
  · rename_i h1 _ _ h2 _ _ h3 _ _ h4
    simp [Call.stage, answer, errOf, h1, h2, h3, h4]

/-- C8: when the size lookup fails, `ProcessRequest` returns that error and
issues no call at all, so that a status record at `Queued` stays there. -/
theorem size_lookup_failure (rt : Runtime) (rm : ResourceManager) (req : QueuedScan)
    (err : GoError) (h : rm.scmClient.GetRepoSize req = .error err) :
    ProcessRequest rt rm req = { events := [], outcome := .returned (some err) } ∧
    queueStatusAfter "Queued" req.ID (ProcessRequest rt rm req).events = "Queued" := by
  have h1 : ProcessRequest rt rm req = { events := [], outcome := .returned (some err) } := by
    simp only [ProcessRequest, h]
  rw [h1]
  exact ⟨rfl, rfl⟩

/-- C8 for the sample request with a size lookup that fails. -/
theorem size_lookup_failure_witness :
    ProcessRequest sampleRuntime sizeLookupFails sampleRequest =
        { events := [], outcome := .returned (some { Error := "unable to get repo size" }) } ∧
      queueStatusAfter "Queued" sampleRequest.ID
        (ProcessRequest sampleRuntime sizeLookupFails sampleRequest).events = "Queued" :=
  size_lookup_failure sampleRuntime sizeLookupFails sampleRequest
    { Error := "unable to get repo size" } rfl

/-- C9 fails when the volume creation fails: `ProcessRequest` does not return
the error, it panics with the error's text. -/
theorem creation_failure_panics :
    (ProcessRequest sampleRuntime volumeCreateFails sampleRequest).events.map
        (fun ev => (ev.call.stage, ev.err)) =
      [(0, some { Error := "storage class not found" })] ∧
    (ProcessRequest sampleRuntime volumeCreateFails sampleRequest).outcome =
      .panicked "storage class not found" ∧
    (ProcessRequest sampleRuntime volumeCreateFails sampleRequest).outcome ≠
      .returned (some { Error := "storage class not found" }) := by
  refine ⟨rfl, rfl, ?_⟩
  decide

/-- C9, amended: a call that fails is the last call of the run; when it is
the status update, `ProcessRequest` returns its error to the caller; when it
is the creation of the volume, the pod or the claim, `ProcessRequest` panics
with the text of its error and does not return. -/
theorem stage_failure_ends_run (rt : Runtime) (rm : ResourceManager) (req : QueuedScan)
    (ev : Event) (e : GoError) (hev : ev ∈ (ProcessRequest rt rm req).events)
    (herr : ev.err = some e) :
    (ProcessRequest rt rm req).events.getLast? = some ev ∧
    answer rm ev.call = some e ∧
    (ev.call.stage = 3 → (ProcessRequest rt rm req).outcome = .returned (some e)) ∧
    (ev.call.stage < 3 → (ProcessRequest rt rm req).outcome = .panicked e.Error) := by
  unfold ProcessRequest at hev ⊢
  simp only at hev ⊢
  split at hev
  · simp at hev
  split at hev
  · rename_i h1 _ _ h2
    simp only [List.mem_singleton] at hev
    subst hev
    simp_all [Call.stage, answer, errOf]
  split at hev
  · rename_i h1 _ _ h2 _ _ h3
    simp only [List.mem_cons, List.mem_singleton, List.not_mem_nil, or_false] at hev
    rcases hev with rfl | rfl <;> simp_all [Call.stage, answer, errOf]
  split at hev
  · rename_i h1 _ _ h2 _ _ h3 _ _ h4
    simp only [List.mem_cons, List.mem_singleton, List.not_mem_nil, or_false] at hev
    rcases hev with rfl | rfl | rfl <;> simp_all [Call.stage, answer, errOf]
  split at hev
  · rename_i h1 _ _ h2 _ _ h3 _ _ h4 _ _ h5
    simp only [List.mem_cons, List.mem_singleton, List.not_mem_nil, or_false] at hev
    rcases hev with rfl | rfl | rfl | rfl <;> simp_all [Call.stage, answer, errOf]
  · rename_i h1 _ _ h2 _ _ h3 _ _ h4 _ _ h5
    simp only [List.mem_cons, List.mem_singleton, List.not_mem_nil, or_false] at hev
    rcases hev with rfl | rfl | rfl | rfl <;> simp_all [Call.stage, answer, errOf]

/-- C9, amended, for the sample request: a failing status update is returned
to the caller, a failing volume creation is a panic. -/
theorem stage_failure_ends_run_witness :
    (ProcessRequest sampleRuntime statusUpdateFails sampleRequest).outcome =
        .returned (some { Error := "connection refused" }) ∧
      (ProcessRequest sampleRuntime volumeCreateFails sampleRequest).outcome =
        .panicked "storage class not found" :=
  ⟨(stage_failure_ends_run sampleRuntime statusUpdateFails sampleRequest
      ⟨.ExecContext "Scheduled" "123e4567-e89b-42d3-a456-426614174000" 7,
        some { Error := "connection refused" }⟩
      { Error := "connection refused" } (by decide) rfl).2.2.1 rfl,
    (stage_failure_ends_run sampleRuntime volumeCreateFails sampleRequest
      ⟨.CreatePersistentVolume
          (newPersistentVolume "trufflehog-pv-123e4567-e89b-42d3-a456-426614174000"
            (capacityPlan sampleRuntime.intOutOfRange 500).actualSize "manual" "My_Repo"),
        some { Error := "storage class not found" }⟩
      { Error := "storage class not found" } (List.mem_cons_self _ _) rfl).2.2.2 (by decide)⟩

end DynamicResourceAllocator
